import Mathlib

/-!
Verification of the tree-sitter based C++ instrumentation tool
(src/test-cpp/main.cpp): the Instrumentation Planner (traverse_and_print),
the Edit Applier (the sort + insert loop in main), and the per-file driver
loop.  The syntax tree produced by the external tree-sitter parser is
modelled as an inductive tree exposing exactly the interface the tool
consumes: node kind, byte range, all/named children in order, field tags,
and sibling order (represented by child-list order).
-/

namespace TsDemo

/-! ## Edit Applier (main.cpp lines 365-373)

An Edit is an insertion position (byte offset into the original buffer)
together with the text to insert, exactly the pair pushed by
traverse_and_print into the insertions vector. -/

abbrev Edit := Nat × List Char

/-- Model of one call of std::string::insert(pos, str): valid when
pos is at most the current length, otherwise the C++ call throws
std::out_of_range, modelled here as none. -/
def insertAt (off : Nat) (text buf : List Char) : Option (List Char) :=
  if off ≤ buf.length then some (buf.take off ++ text ++ buf.drop off) else none

/-- Model of the application loop of main: the edits are applied one by
one, in list order, into a single evolving copy of the buffer; the first
out-of-range insertion aborts (uncaught exception). -/
def applyEdits : List Edit → List Char → Option (List Char)
  | [], buf => some buf
  | e :: rest, buf =>
    match insertAt e.1 e.2 buf with
    | none => none
    | some b => applyEdits rest b

/-- The list has non-increasing offsets, which is the postcondition of the
std::sort call with comparator (a.first > b.first). -/
def sortedDescB : List Edit → Bool
  | [] => true
  | [_] => true
  | a :: b :: rest => decide (b.1 ≤ a.1) && sortedDescB (b :: rest)

/-- Insert one edit into an already descending-sorted list, keeping it
descending.  Together with sortIns this is one admissible result of the
std::sort call (the C++ standard fixes the sortedness of the result but
not the relative order of edits with equal offsets). -/
def insEdit (e : Edit) : List Edit → List Edit
  | [] => [e]
  | f :: rest => if f.1 ≤ e.1 then e :: f :: rest else f :: insEdit e rest

/-- Insertion sort by offset, descending: one admissible std::sort run. -/
def sortIns : List Edit → List Edit
  | [] => []
  | e :: rest => insEdit e (sortIns rest)

/-- Specification of the std::sort call at main.cpp:367: the output is a
permutation of the input whose offsets are non-increasing.  Relative order
of edits with equal offsets is NOT fixed (std::sort is not stable). -/
def sortSpec (es es' : List Edit) : Prop :=
  es.Perm es' ∧ sortedDescB es' = true

/-- The Edit Applier as a relation: out is a possible result of sorting
the edit list descending by offset (any order allowed for ties) and then
inserting each edit at its offset in that order. -/
def applierRel (es : List Edit) (buf out : List Char) : Prop :=
  ∃ es', sortSpec es es' ∧ applyEdits es' buf = some out

/-- Per-file write-back step of main: sort the recorded insertions
descending and apply them (using the insertion-sort realisation of
std::sort; for the inputs where this matters below, the edit lists are
tie-free or singletons, where every admissible sort agrees). -/
def processFile (buf : List Char) (es : List Edit) : Option (List Char) :=
  applyEdits (sortIns es) buf

/-- The for-loop over files in main: each file is processed in turn; an
out-of-range insertion throws std::out_of_range, and main has no handler,
so the exception propagates and the whole run dies: no later file is
processed.  That uncaught propagation is modelled by the none branch. -/
def runFiles : List (List Char × List Edit) → Option (List (List Char))
  | [] => some []
  | (b, es) :: rest =>
    match processFile b es with
    | none => none
    | some out =>
      match runFiles rest with
      | none => none
      | some outs => some (out :: outs)

/-! ## Substring search (std::string::find) -/

/-- The needle occurs at the very beginning of the haystack. -/
def leadsWith : List Char → List Char → Bool
  | [], _ => true
  | _ :: _, [] => false
  | a :: as, b :: bs => a == b && leadsWith as bs

/-- Model of (haystack.find(needle) != std::string::npos). -/
def containsSub (needle : List Char) : List Char → Bool
  | [] => leadsWith needle []
  | c :: rest => leadsWith needle (c :: rest) || containsSub needle rest

/-! ## Syntax tree model

A node carries: whether it is a named node (tree-sitter distinguishes
named nodes from anonymous tokens), its field tag inside its parent (for
ts_node_child_by_field_name), its kind string (ts_node_type), its byte
range [startB, endB) and its children, all of them, in source order. -/

inductive Node where
  | mk (named : Bool) (fieldTag : Option String) (kind : String)
       (startB : Nat) (endB : Nat) (children : List Node)

def Node.named : Node → Bool
  | .mk nb _ _ _ _ _ => nb

def Node.fieldTag : Node → Option String
  | .mk _ ft _ _ _ _ => ft

def Node.kind : Node → String
  | .mk _ _ k _ _ _ => k

def Node.startB : Node → Nat
  | .mk _ _ _ sb _ _ => sb

def Node.endB : Node → Nat
  | .mk _ _ _ _ eb _ => eb

def Node.children : Node → List Node
  | .mk _ _ _ _ _ cs => cs

/-- Source text of a node: source_code.substr(start, end - start). -/
def nodeText (src : List Char) (n : Node) : List Char :=
  (src.drop n.startB).take (n.endB - n.startB)

/-- Model of ts_find_node_in_first_child_level_by_type (main.cpp:133):
scan the NAMED children in order, return the first whose kind matches. -/
def findNamedLevel1 (cs : List Node) (ty : String) : Option Node :=
  (cs.filter Node.named).find? (fun c => c.kind == ty)

/-- Model of ts_node_child_by_node_type (main.cpp:94): scan ALL children
in order, return the first whose kind matches. -/
def childByNodeType (cs : List Node) (ty : String) : Option Node :=
  cs.find? (fun c => c.kind == ty)

/-- Model of ts_node_child_by_field_name: the first child carrying the
given field tag. -/
def childByFieldName (cs : List Node) (fname : String) : Option Node :=
  cs.find? (fun c => c.fieldTag == some fname)

/-- Model of ts_check_node_source_code (main.cpp:155): false on the null
node, otherwise compare the node text with the given string. -/
def checkNodeSource (src : List Char) (n? : Option Node) (code : List Char) : Bool :=
  match n? with
  | none => false
  | some n => nodeText src n == code

/-! ## Instrumentation Planner (traverse_and_print, main.cpp lines 192-305) -/

/-- The trace-marker token searched for by the idempotency check
(first_child_node_code.find at main.cpp:280). -/
def markerStr : List Char := "TRACE_CPUPROFILER_EVENT_SCOPE".data

/-- The inserted statement before indentation is appended
(main.cpp:277). -/
def traceLine (fname : List Char) : List Char :=
  "TRACE_CPUPROFILER_EVENT_SCOPE(".data ++ fname ++ ");".data

/-- Whitespace between the opening delimiter of the body and its first
real child: source_code.substr(start(body)+1, start(first) - start(body) - 1)
at main.cpp:288. -/
def blankChars (src : List Char) (body fc : Node) : List Char :=
  (src.drop (body.startB + 1)).take (fc.startB - body.startB - 1)

/-- The decision taken by traverse_and_print for one node of kind
function_definition, one constructor per exit of the C++ block. -/
inductive FnOutcome where
  | rejectConstexpr
  | rejectNoDeclarator
  | rejectNoIdentifier
  | rejectNoParams
  | rejectNoBody
  | rejectNullFirstChild
  | rejectNoNameField
  | rejectMultilineName (fname : List Char)
  | skipAlreadyDone
  | fallThroughSmallBody
  | emit (offset : Nat) (text : List Char)
deriving DecidableEq

/-- Direct translation of the function_definition block of
traverse_and_print (main.cpp lines 206-294), in the exact evaluation
order of the C++ code. -/
def classifyFn (src : List Char) (n : Node) : FnOutcome :=
  if checkNodeSource src (findNamedLevel1 n.children "type_qualifier") "constexpr".data then
    .rejectConstexpr
  else
    match findNamedLevel1 n.children "function_declarator" with
    | none => .rejectNoDeclarator
    | some fd =>
      if (findNamedLevel1 fd.children "identifier").isNone
          && (findNamedLevel1 fd.children "field_identifier").isNone
          && (findNamedLevel1 fd.children "qualified_identifier").isNone then
        .rejectNoIdentifier
      else if (findNamedLevel1 fd.children "parameter_list").isNone then
        .rejectNoParams
      else
        match childByNodeType n.children "compound_statement" with
        | none => .rejectNoBody
        | some body =>
          if body.children.length > 1 then
            match body.children[1]? with
            | none => .rejectNullFirstChild
            | some fc =>
              match childByFieldName fd.children "declarator" with
              | none => .rejectNoNameField
              | some nameN =>
                if (nodeText src nameN).contains (Char.ofNat 10) then
                  .rejectMultilineName (nodeText src nameN)
                else if containsSub markerStr (nodeText src fc) then
                  .skipAlreadyDone
                else
                  .emit fc.startB (traceLine (nodeText src nameN) ++ blankChars src body fc)
          else
            .fallThroughSmallBody

/-- A diagnostic record: the label and the offending source snippet
written by the NODE_ERROR_CONTINUE family of macros. -/
abbrev Diag := String × List Char

/-- The diagnostic(s) each outcome writes to the log: exactly one line per
rejection, none for the silent skip, the small-body fall-through and the
accepted path. -/
def fnDiags (src : List Char) (n : Node) : FnOutcome → List Diag
  | .rejectConstexpr => [("constexpr can\x27t trace", nodeText src n)]
  | .rejectNoDeclarator => [("function_declarator", nodeText src n)]
  | .rejectNoIdentifier => [("identifier", nodeText src n)]
  | .rejectNoParams => [("parameter_list", nodeText src n)]
  | .rejectNoBody => [("compound_statement", nodeText src n)]
  | .rejectNullFirstChild => [("first_child_node", nodeText src n)]
  | .rejectNoNameField => [("function_name_node", nodeText src n)]
  | .rejectMultilineName fname => [("function_name multiline", fname)]
  | .skipAlreadyDone => []
  | .fallThroughSmallBody => []
  | .emit _ _ => []

/-- The edit(s) each outcome pushes into the insertions vector. -/
def fnEdits : FnOutcome → List Edit
  | .emit o t => [(o, t)]
  | _ => []

/-- Whether control reaches a recursion into the first named child of the node:
true for the NODE_ERROR_CONTINUE_TRAVERSE rejections (missing declarator,
missing identifier, missing parameter list) and for the two fall-through
paths (small body, accepted emit); false for NODE_ERROR_CONTINUE
(constexpr, missing body, null first child, missing or multiline name
field) and for the NODE_CONTINUE silent skip. -/
def fnRecurses : FnOutcome → Bool
  | .rejectNoDeclarator => true
  | .rejectNoIdentifier => true
  | .rejectNoParams => true
  | .fallThroughSmallBody => true
  | .emit _ _ => true
  | _ => false

/-- Planner state: the insertions vector and the log of diagnostics,
both appended at the end in discovery order. -/
structure PState where
  insertions : List Edit
  log : List Diag
deriving DecidableEq

/-- Record the effects of one function_definition outcome. -/
def pushOutcome (src : List Char) (n : Node) (oc : FnOutcome) (st : PState) : PState :=
  { insertions := st.insertions ++ fnEdits oc, log := st.log ++ fnDiags src n oc }

mutual

/-- Visit a single node: the loop body of traverse_and_print.  A node of kind
function_definition is classified; its effects are recorded and its
children are traversed only when the outcome falls through or uses the
traversing error macro.  Any other node just recurses.  The C++ guard
(child_count > 0) before each recursion is a no-op here: traversing an
empty named-children sequence leaves the state unchanged, exactly as the
C++ call on the null first named child returns immediately. -/
def visitNode (src : List Char) : Node → PState → PState
  | .mk nb ft k sb eb cs, st =>
    if k == "function_definition" then
      if fnRecurses (classifyFn src (.mk nb ft k sb eb cs)) then
        visitKids src cs
          (pushOutcome src (.mk nb ft k sb eb cs) (classifyFn src (.mk nb ft k sb eb cs)) st)
      else
        pushOutcome src (.mk nb ft k sb eb cs) (classifyFn src (.mk nb ft k sb eb cs)) st
    else
      visitKids src cs st

/-- Visit a sibling chain: starting at the first named child and following
next-named-sibling links means visiting the named children in order and
skipping the anonymous ones. -/
def visitKids (src : List Char) : List Node → PState → PState
  | [], st => st
  | c :: rest, st =>
    visitKids src rest (if c.named then visitNode src c st else st)

end

/-- The whole planning pass of main (main.cpp:362-363): traverse from the
root with empty insertions and log. -/
def planState (src : List Char) (root : Node) : PState :=
  visitNode src root { insertions := [], log := [] }

def planEdits (src : List Char) (root : Node) : List Edit :=
  (planState src root).insertions

def planDiags (src : List Char) (root : Node) : List Diag :=
  (planState src root).log

mutual

/-- The sequence of nodes the traversal visits, in visit order; mirrors
visitNode/visitKids including the skipped recursions. -/
def visitedNode (src : List Char) : Node → List Node
  | .mk nb ft k sb eb cs =>
    Node.mk nb ft k sb eb cs ::
      (if k == "function_definition" then
        (if fnRecurses (classifyFn src (.mk nb ft k sb eb cs)) then
          visitedKids src cs
        else [])
      else visitedKids src cs)

def visitedKids (src : List Char) : List Node → List Node
  | [] => []
  | c :: rest => (if c.named then visitedNode src c else []) ++ visitedKids src rest

end

mutual

/-- Every node of the tree, in pre-order (the whole tree, independent of
what the traversal actually visits). -/
def nodesOf : Node → List Node
  | .mk nb ft k sb eb cs => Node.mk nb ft k sb eb cs :: nodesOfKids cs

def nodesOfKids : List Node → List Node
  | [] => []
  | c :: rest => nodesOf c ++ nodesOfKids rest

end

mutual

/-- Well-formedness of byte ranges against a buffer length: every node of
the tree has startB ≤ endB ≤ len.  This is the §3 invariant of trees the
external parser hands to the planner. -/
def nodeWF (len : Nat) : Node → Bool
  | .mk _ _ _ sb eb cs => decide (sb ≤ eb) && decide (eb ≤ len) && kidsWF len cs

def kidsWF (len : Nat) : List Node → Bool
  | [] => true
  | c :: rest => nodeWF len c && kidsWF len rest

end

/-- The body-level idempotency condition at one function node: whenever
the node has a compound_statement child (found the way the code finds it)
whose child at index 1 exists, the source text of that child contains the trace
marker.  This is what the text inserted by a first run guarantees at the
positions the planner instrumented, provided the external parser parses
the inserted statement as the first statement of the body. -/
def fnMarkedAt (src : List Char) (n : Node) : Bool :=
  match childByNodeType n.children "compound_statement" with
  | none => true
  | some body =>
    match body.children[1]? with
    | none => true
    | some fc => containsSub markerStr (nodeText src fc)

mutual

/-- Every function_definition node of the tree satisfies fnMarkedAt. -/
def allFnMarked (src : List Char) : Node → Bool
  | .mk nb ft k sb eb cs =>
    (if k == "function_definition" then fnMarkedAt src (.mk nb ft k sb eb cs)
     else true) && allFnMarkedKids src cs

def allFnMarkedKids (src : List Char) : List Node → Bool
  | [] => true
  | c :: rest => allFnMarked src c && allFnMarkedKids src rest

end

/-! ## Concrete scenario trees

Each tree below is the tree-sitter-cpp parse of the given source string,
with byte offsets computed against that exact string. -/

/-- Scenario source: int add(int a, int b) \x7b return a + b; \x7d -/
def addSrc : List Char := "int add(int a, int b) \x7b return a + b; \x7d".data

def addRet : Node :=
  .mk true none "return_statement" 24 37
    [ .mk false none "return" 24 30 [],
      .mk true none "binary_expression" 31 36
        [ .mk true (some "left") "identifier" 31 32 [],
          .mk false (some "operator") "+" 33 34 [],
          .mk true (some "right") "identifier" 35 36 [] ],
      .mk false none ";" 36 37 [] ]

def addBody : Node :=
  .mk true (some "body") "compound_statement" 22 39
    [ .mk false none "\x7b" 22 23 [], addRet, .mk false none "\x7d" 38 39 [] ]

def addDecl : Node :=
  .mk true (some "declarator") "function_declarator" 4 21
    [ .mk true (some "declarator") "identifier" 4 7 [],
      .mk true (some "parameters") "parameter_list" 7 21
        [ .mk false none "(" 7 8 [],
          .mk true none "parameter_declaration" 8 13
            [ .mk true (some "type") "primitive_type" 8 11 [],
              .mk true (some "declarator") "identifier" 12 13 [] ],
          .mk false none "," 13 14 [],
          .mk true none "parameter_declaration" 15 20
            [ .mk true (some "type") "primitive_type" 15 18 [],
              .mk true (some "declarator") "identifier" 19 20 [] ],
          .mk false none ")" 20 21 [] ] ]

def addFn : Node :=
  .mk true none "function_definition" 0 39
    [ .mk true (some "type") "primitive_type" 0 3 [], addDecl, addBody ]

def addRoot : Node := .mk true none "translation_unit" 0 39 [addFn]

/-- Scenario source: int Foo::Bar(int x) \x7b return x; \x7d -/
def fooSrc : List Char := "int Foo::Bar(int x) \x7b return x; \x7d".data

def fooQualId : Node :=
  .mk true (some "declarator") "qualified_identifier" 4 12
    [ .mk true (some "scope") "namespace_identifier" 4 7 [],
      .mk false none "::" 7 9 [],
      .mk true (some "name") "identifier" 9 12 [] ]

def fooDecl : Node :=
  .mk true (some "declarator") "function_declarator" 4 19
    [ fooQualId,
      .mk true (some "parameters") "parameter_list" 12 19
        [ .mk false none "(" 12 13 [],
          .mk true none "parameter_declaration" 13 18
            [ .mk true (some "type") "primitive_type" 13 16 [],
              .mk true (some "declarator") "identifier" 17 18 [] ],
          .mk false none ")" 18 19 [] ] ]

def fooBody : Node :=
  .mk true (some "body") "compound_statement" 20 33
    [ .mk false none "\x7b" 20 21 [],
      .mk true none "return_statement" 22 31
        [ .mk false none "return" 22 28 [],
          .mk true none "identifier" 29 30 [],
          .mk false none ";" 30 31 [] ],
      .mk false none "\x7d" 32 33 [] ]

def fooFn : Node :=
  .mk true none "function_definition" 0 33
    [ .mk true (some "type") "primitive_type" 0 3 [], fooDecl, fooBody ]

def fooRoot : Node := .mk true none "translation_unit" 0 33 [fooFn]

/-- Steady-state scenario source:
int add(int a,int b)\x7b TRACE_CPUPROFILER_EVENT_SCOPE(add); return a+b; \x7d -/
def steadySrc : List Char :=
  "int add(int a,int b)\x7b TRACE_CPUPROFILER_EVENT_SCOPE(add); return a+b; \x7d".data

def steadyMarkerStmt : Node :=
  .mk true none "expression_statement" 22 57
    [ .mk true none "call_expression" 22 56
        [ .mk true (some "function") "identifier" 22 51 [],
          .mk true (some "arguments") "argument_list" 51 56
            [ .mk false none "(" 51 52 [],
              .mk true none "identifier" 52 55 [],
              .mk false none ")" 55 56 [] ] ],
      .mk false none ";" 56 57 [] ]

def steadyBody : Node :=
  .mk true (some "body") "compound_statement" 20 71
    [ .mk false none "\x7b" 20 21 [],
      steadyMarkerStmt,
      .mk true none "return_statement" 58 69
        [ .mk false none "return" 58 64 [],
          .mk true none "binary_expression" 65 68
            [ .mk true (some "left") "identifier" 65 66 [],
              .mk false (some "operator") "+" 66 67 [],
              .mk true (some "right") "identifier" 67 68 [] ],
          .mk false none ";" 68 69 [] ] ,
      .mk false none "\x7d" 70 71 [] ]

def steadyDecl : Node :=
  .mk true (some "declarator") "function_declarator" 4 20
    [ .mk true (some "declarator") "identifier" 4 7 [],
      .mk true (some "parameters") "parameter_list" 7 20
        [ .mk false none "(" 7 8 [],
          .mk true none "parameter_declaration" 8 13
            [ .mk true (some "type") "primitive_type" 8 11 [],
              .mk true (some "declarator") "identifier" 12 13 [] ],
          .mk false none "," 13 14 [],
          .mk true none "parameter_declaration" 14 19
            [ .mk true (some "type") "primitive_type" 14 17 [],
              .mk true (some "declarator") "identifier" 18 19 [] ],
          .mk false none ")" 19 20 [] ] ]

def steadyFn : Node :=
  .mk true none "function_definition" 0 71
    [ .mk true (some "type") "primitive_type" 0 3 [], steadyDecl, steadyBody ]

def steadyRoot : Node := .mk true none "translation_unit" 0 71 [steadyFn]

/-- Nested-function scenario source (a constexpr function holding a local
class with an eligible method):
constexpr int outer() \x7b struct S \x7b int m() \x7b return 1; \x7d \x7d; return 0; \x7d -/
def nestSrc : List Char :=
  "constexpr int outer() \x7b struct S \x7b int m() \x7b return 1; \x7d \x7d; return 0; \x7d".data

def nestInnerFn : Node :=
  .mk true none "function_definition" 35 56
    [ .mk true (some "type") "primitive_type" 35 38 [],
      .mk true (some "declarator") "function_declarator" 39 42
        [ .mk true (some "declarator") "field_identifier" 39 40 [],
          .mk true (some "parameters") "parameter_list" 40 42
            [ .mk false none "(" 40 41 [], .mk false none ")" 41 42 [] ] ],
      .mk true (some "body") "compound_statement" 43 56
        [ .mk false none "\x7b" 43 44 [],
          .mk true none "return_statement" 45 54
            [ .mk false none "return" 45 51 [],
              .mk true none "number_literal" 52 53 [],
              .mk false none ";" 53 54 [] ],
          .mk false none "\x7d" 55 56 [] ] ]

def nestStruct : Node :=
  .mk true none "struct_specifier" 24 58
    [ .mk false none "struct" 24 30 [],
      .mk true (some "name") "type_identifier" 31 32 [],
      .mk true (some "body") "field_declaration_list" 33 58
        [ .mk false none "\x7b" 33 34 [],
          nestInnerFn,
          .mk false none "\x7d" 57 58 [] ] ]

def nestQual : Node :=
  .mk true none "type_qualifier" 0 9 [ .mk false none "constexpr" 0 9 [] ]

def nestOuterFn : Node :=
  .mk true none "function_definition" 0 71
    [ nestQual,
      .mk true (some "type") "primitive_type" 10 13 [],
      .mk true (some "declarator") "function_declarator" 14 21
        [ .mk true (some "declarator") "identifier" 14 19 [],
          .mk true (some "parameters") "parameter_list" 19 21
            [ .mk false none "(" 19 20 [], .mk false none ")" 20 21 [] ] ],
      .mk true (some "body") "compound_statement" 22 71
        [ .mk false none "\x7b" 22 23 [],
          nestStruct,
          .mk false none ";" 58 59 [],
          .mk true none "return_statement" 60 69
            [ .mk false none "return" 60 66 [],
              .mk true none "number_literal" 67 68 [],
              .mk false none ";" 68 69 [] ],
          .mk false none "\x7d" 70 71 [] ] ]

def nestRoot : Node := .mk true none "translation_unit" 0 71 [nestOuterFn]

/-- Malformed-body scenario source (unterminated body, error-recovered
into a compound_statement with a single child): int f() \x7b -/
def stubSrc : List Char := "int f() \x7b".data

def stubBody : Node :=
  .mk true (some "body") "compound_statement" 8 9 [ .mk false none "\x7b" 8 9 [] ]

def stubFn : Node :=
  .mk true none "function_definition" 0 9
    [ .mk true (some "type") "primitive_type" 0 3 [],
      .mk true (some "declarator") "function_declarator" 4 7
        [ .mk true (some "declarator") "identifier" 4 5 [],
          .mk true (some "parameters") "parameter_list" 5 7
            [ .mk false none "(" 5 6 [], .mk false none ")" 6 7 [] ] ],
      stubBody ]

def stubRoot : Node := .mk true none "translation_unit" 0 9 [stubFn]

/-- Double-qualifier scenario source:
const constexpr int f() \x7b return 1; \x7d -/
def dqSrc : List Char := "const constexpr int f() \x7b return 1; \x7d".data

def dqConstexprQual : Node :=
  .mk true none "type_qualifier" 6 15 [ .mk false none "constexpr" 6 15 [] ]

def dqFn : Node :=
  .mk true none "function_definition" 0 37
    [ .mk true none "type_qualifier" 0 5 [ .mk false none "const" 0 5 [] ],
      dqConstexprQual,
      .mk true (some "type") "primitive_type" 16 19 [],
      .mk true (some "declarator") "function_declarator" 20 23
        [ .mk true (some "declarator") "identifier" 20 21 [],
          .mk true (some "parameters") "parameter_list" 21 23
            [ .mk false none "(" 21 22 [], .mk false none ")" 22 23 [] ] ],
      .mk true (some "body") "compound_statement" 24 37
        [ .mk false none "\x7b" 24 25 [],
          .mk true none "return_statement" 26 35
            [ .mk false none "return" 26 32 [],
              .mk true none "number_literal" 33 34 [],
              .mk false none ";" 34 35 [] ],
          .mk false none "\x7d" 36 37 [] ] ]

def dqRoot : Node := .mk true none "translation_unit" 0 37 [dqFn]

/-! ## Applier lemmas -/

theorem insertAt_eq_some {off : Nat} {t buf : List Char} (h : off ≤ buf.length) :
    insertAt off t buf = some (buf.take off ++ t ++ buf.drop off) := by
  simp [insertAt, h]

theorem insertAt_length {off : Nat} {t buf : List Char} (h : off ≤ buf.length) :
    (buf.take off ++ t ++ buf.drop off).length = buf.length + t.length := by
  simp [List.length_append, List.length_take, List.length_drop]
  omega

theorem insertAt_sublist (off : Nat) (t buf : List Char) :
    buf.Sublist (buf.take off ++ t ++ buf.drop off) := by
  conv_lhs => rw [← List.take_append_drop off buf]
  rw [List.append_assoc]
  exact (List.sublist_append_right t (buf.drop off)).append_left (buf.take off)

theorem applyEdits_total_of_bounds :
    ∀ (es : List Edit) (buf : List Char), (∀ e ∈ es, e.1 ≤ buf.length) →
    ∃ out, applyEdits es buf = some out ∧
      out.length = buf.length + (es.map (fun e => e.2.length)).sum ∧
      buf.Sublist out := by
  intro es
  induction es with
  | nil =>
    intro buf _
    exact ⟨buf, rfl, by simp, List.Sublist.refl buf⟩
  | cons e rest ih =>
    intro buf hb
    have he : e.1 ≤ buf.length := hb e (List.mem_cons_self e rest)
    have hrest : ∀ f ∈ rest, f.1 ≤ (buf.take e.1 ++ e.2 ++ buf.drop e.1).length := by
      intro f hf
      rw [insertAt_length he]
      exact Nat.le_trans (hb f (List.mem_cons_of_mem e hf)) (Nat.le_add_right _ _)
    obtain ⟨out, hrun, hlen, hsub⟩ := ih (buf.take e.1 ++ e.2 ++ buf.drop e.1) hrest
    refine ⟨out, ?_, ?_, ?_⟩
    · simp only [applyEdits, insertAt_eq_some he]
      exact hrun
    · rw [hlen, insertAt_length he]
      simp [List.map_cons, List.sum_cons]
      omega
    · exact (insertAt_sublist e.1 e.2 buf).trans hsub

theorem sortedDescB_tail {a : Edit} {l : List Edit}
    (h : sortedDescB (a :: l) = true) : sortedDescB l = true := by
  cases l with
  | nil => rfl
  | cons b rest =>
    simp only [sortedDescB, Bool.and_eq_true, decide_eq_true_eq] at h
    exact h.2

theorem sortedDescB_head_max {a : Edit} {l : List Edit}
    (h : sortedDescB (a :: l) = true) : ∀ b ∈ l, b.1 ≤ a.1 := by
  induction l generalizing a with
  | nil => intro b hb; cases hb
  | cons c rest ih =>
    intro b hb
    simp only [sortedDescB, Bool.and_eq_true, decide_eq_true_eq] at h
    rcases List.mem_cons.mp hb with rfl | hb
    · exact h.1
    · exact Nat.le_trans (ih h.2 b hb) h.1

theorem sorted_perm_unique :
    ∀ (l₁ l₂ : List Edit), l₁.Perm l₂ →
    sortedDescB l₁ = true → sortedDescB l₂ = true →
    (l₁.map Prod.fst).Nodup → l₁ = l₂ := by
  intro l₁
  induction l₁ with
  | nil =>
    intro l₂ hp _ _ _
    exact (hp.nil_eq).symm ▸ rfl
  | cons a t₁ ih =>
    intro l₂ hp hs₁ hs₂ hnd
    cases l₂ with
    | nil => exact absurd hp.symm (by simp [List.Perm.eq_nil, List.perm_nil])
    | cons b t₂ =>
      have hab : a = b := by
        have ha2 : a ∈ b :: t₂ := hp.mem_iff.mp (List.mem_cons_self a t₁)
        have hb1 : b ∈ a :: t₁ := hp.symm.mem_iff.mp (List.mem_cons_self b t₂)
        have hle1 : a.1 ≤ b.1 := by
          rcases List.mem_cons.mp ha2 with heq | ha2
          · exact Nat.le_of_eq (congrArg Prod.fst heq)
          · exact sortedDescB_head_max hs₂ a ha2
        rcases List.mem_cons.mp hb1 with heq | hb1
        · exact heq.symm
        · have hle2 : b.1 ≤ a.1 := sortedDescB_head_max hs₁ b hb1
          have heq : a.1 = b.1 := Nat.le_antisymm hle1 hle2
          have hmem : a.1 ∈ t₁.map Prod.fst := heq ▸ List.mem_map_of_mem Prod.fst hb1
          rw [List.map_cons, List.nodup_cons] at hnd
          exact absurd hmem hnd.1
      subst hab
      have ht : t₁.Perm t₂ := hp.cons_inv
      have hnd' : (t₁.map Prod.fst).Nodup := by
        rw [List.map_cons, List.nodup_cons] at hnd
        exact hnd.2
      rw [ih t₂ ht (sortedDescB_tail hs₁) (sortedDescB_tail hs₂) hnd']

theorem applyEdits_none_of_overflow {es : List Edit} {buf : List Char}
    (hs : sortedDescB es = true) (h : ∃ e ∈ es, buf.length < e.1) :
    applyEdits es buf = none := by
  obtain ⟨e, he, helt⟩ := h
  cases es with
  | nil => cases he
  | cons a rest =>
    have ha : buf.length < a.1 := by
      rcases List.mem_cons.mp he with rfl | he
      · exact helt
      · exact Nat.lt_of_lt_of_le helt (sortedDescB_head_max hs e he)
    have : insertAt a.1 a.2 buf = none := by
      simp [insertAt, Nat.not_le_of_lt ha]
    simp [applyEdits, this]

theorem runFiles_abort {b : List Char} {es : List Edit}
    (h : processFile b es = none) (rest : List (List Char × List Edit)) :
    runFiles ((b, es) :: rest) = none := by
  simp [runFiles, h]

/-! ## Claim C1 -/

/-- C1: offset soundness of the Edit Applier.  For every original buffer
and every edit list sorted by offset descending whose offsets are within
the buffer, applying the edits in that order succeeds; the length of the resulting
buffer equals the original length plus the sum of the lengths of
all inserted texts, and the bytes of the original buffer appear unmodified and
in their original relative order (as a sublist) in the output. -/
theorem claim_C1_offset_soundness (buf : List Char) (es : List Edit)
    (_hs : sortedDescB es = true) (hb : ∀ e ∈ es, e.1 ≤ buf.length) :
    ∃ out, applyEdits es buf = some out ∧
      out.length = buf.length + (es.map (fun e => e.2.length)).sum ∧
      buf.Sublist out :=
  applyEdits_total_of_bounds es buf hb

/-- C1 witness: the theorem applied to the buffer ab and the descending
edit list inserting z at offset 2 and xy at offset 0. -/
theorem claim_C1_witness :
    sortedDescB [(2, "z".data), (0, "xy".data)] = true ∧
    (∀ e ∈ ([(2, "z".data), (0, "xy".data)] : List Edit),
      e.1 ≤ ("ab".data : List Char).length) ∧
    (∃ out, applyEdits [(2, "z".data), (0, "xy".data)] "ab".data = some out ∧
      out.length = ("ab".data : List Char).length +
        (([(2, "z".data), (0, "xy".data)] : List Edit).map (fun e => e.2.length)).sum ∧
      ("ab".data : List Char).Sublist out) :=
  ⟨by decide, by decide,
    claim_C1_offset_soundness "ab".data [(2, "z".data), (0, "xy".data)]
      (by decide) (by decide)⟩

/-! ## Claim C3 -/

/-- C3 counterexample: two edits at the same offset.  Both the discovery
order and its swap are admissible results of the std::sort call (which the
C++ standard does not require to be stable), and the two admissible runs
produce different output buffers; so the claim that ties are applied in
the stable discovery order, making the output reproducible, fails on the
code. -/
theorem claim_C3_counterexample :
    applierRel [(0, "a".data), (0, "b".data)] [] "ba".data ∧
    applierRel [(0, "a".data), (0, "b".data)] [] "ab".data ∧
    ("ba".data : List Char) ≠ "ab".data := by
  refine ⟨⟨[(0, "a".data), (0, "b".data)], ⟨List.Perm.refl _, by decide⟩, by decide⟩,
    ⟨[(0, "b".data), (0, "a".data)], ⟨by decide, by decide⟩, by decide⟩, by decide⟩

/-- C3 (amended): the applier applies the edits in an order with
non-increasing offsets, a permutation of the list of the planner produced by
std::sort; because that sort need not be stable, edits sharing an offset
have no guaranteed order, but whenever all offsets are pairwise distinct
the sorted order, and hence the output buffer, is uniquely determined and
reproducible. -/
theorem claim_C3_applier_deterministic (es : List Edit) (buf out₁ out₂ : List Char)
    (hnd : (es.map Prod.fst).Nodup)
    (h₁ : applierRel es buf out₁) (h₂ : applierRel es buf out₂) : out₁ = out₂ := by
  obtain ⟨es₁, ⟨hp₁, hs₁⟩, ha₁⟩ := h₁
  obtain ⟨es₂, ⟨hp₂, hs₂⟩, ha₂⟩ := h₂
  have hnd₁ : (es₁.map Prod.fst).Nodup := ((hp₁.map Prod.fst).nodup_iff).mp hnd
  have heq : es₁ = es₂ := sorted_perm_unique es₁ es₂ (hp₁.symm.trans hp₂) hs₁ hs₂ hnd₁
  rw [heq] at ha₁
  exact Option.some.inj (ha₁.symm.trans ha₂)

/-- C3 witness: the amended theorem applied to a tie-free edit list, whose
unique applier output is xaby. -/
theorem claim_C3_witness :
    (([(0, "x".data), (2, "y".data)] : List Edit).map Prod.fst).Nodup ∧
    applierRel [(0, "x".data), (2, "y".data)] "ab".data "xaby".data ∧
    ("xaby".data : List Char) = "xaby".data := by
  have hrel : applierRel [(0, "x".data), (2, "y".data)] "ab".data "xaby".data :=
    ⟨[(2, "y".data), (0, "x".data)], ⟨by decide, by decide⟩, by decide⟩
  exact ⟨by decide, hrel,
    claim_C3_applier_deterministic [(0, "x".data), (2, "y".data)] "ab".data
      "xaby".data "xaby".data (by decide) hrel hrel⟩

/-! ## Claim C9 -/

/-- C9 counterexample: a first file whose edit offset exceeds its buffer
length and a second, well-formed file.  The apply operation on the first
file does fail fast, and the second file alone would be processed fine,
but the run does NOT continue with the next file: the out-of-range
exception escapes the loop of main (there is no handler), so the whole run
aborts and no output at all is produced. -/
theorem claim_C9_counterexample :
    processFile "ab".data [(5, "x".data)] = none ∧
    processFile "cd".data ([] : List Edit) = some "cd".data ∧
    runFiles [("ab".data, [(5, "x".data)]), ("cd".data, [])] = none := by decide

/-- C9 (amended): if the offset of some edit exceeds the buffer length, the
apply operation fails fast with an out-of-range error instead of silently
truncating, but the failure is not contained to the file being processed:
the exception is uncaught, so the entire run aborts and no subsequent
file is processed. -/
theorem claim_C9_failure_semantics :
    (∀ (es : List Edit) (buf : List Char), sortedDescB es = true →
      (∃ e ∈ es, buf.length < e.1) → applyEdits es buf = none) ∧
    (∀ (b : List Char) (es : List Edit) (rest : List (List Char × List Edit)),
      processFile b es = none → runFiles ((b, es) :: rest) = none) :=
  ⟨fun _ _ hs h => applyEdits_none_of_overflow hs h,
   fun _ _ rest h => runFiles_abort h rest⟩

/-- C9 witness: the amended theorem applied to the single edit at offset 5
against the two-byte buffer ab. -/
theorem claim_C9_witness :
    sortedDescB [(5, "x".data)] = true ∧
    (∃ e ∈ ([(5, "x".data)] : List Edit), ("ab".data : List Char).length < e.1) ∧
    applyEdits [(5, "x".data)] "ab".data = none ∧
    runFiles [("ab".data, [(5, "x".data)]), ("cd".data, [])] = none :=
  ⟨by decide, by decide,
    claim_C9_failure_semantics.1 [(5, "x".data)] "ab".data (by decide) (by decide),
    claim_C9_failure_semantics.2 "ab".data [(5, "x".data)] [("cd".data, [])] (by decide)⟩

/-! ## Claim C7 -/

/-- C7: simple-function scenario.  On the parse tree of
int add(int a, int b) .. return a + b; .. the planner emits exactly one
Edit; its offset is the start byte (24) of the return statement, and its
text is the trace marker statement for add followed by exactly the
whitespace run found in the source between the opening delimiter of the body
(byte 22) and the return token — here the single space at byte 23. -/
theorem claim_C7_simple_function :
    planEdits addSrc addRoot = [(24, traceLine "add".data ++ " ".data)] ∧
    addRet.startB = 24 ∧
    addBody.startB = 22 ∧
    (addSrc.drop 23).take 1 = " ".data ∧
    blankChars addSrc addBody addRet = " ".data ∧
    planDiags addSrc addRoot = [] := by
  refine ⟨by decide, rfl, rfl, by decide, by decide, by decide⟩

/-! ## Claim C8 -/

/-- C8: qualified-method scenario.  On the parse tree of
int Foo::Bar(int x) .. return x; .. the single Edit of the planner carries the
fully qualified name Foo::Bar, obtained from the child the declarator
field designates (the qualified_identifier node) — and not the name Bar
alone; also the declarator has no raw first-level identifier child at all,
so only the field lookup can produce the name. -/
theorem claim_C8_qualified_method :
    planEdits fooSrc fooRoot = [(22, traceLine "Foo::Bar".data ++ " ".data)] ∧
    childByFieldName fooDecl.children "declarator" = some fooQualId ∧
    nodeText fooSrc fooQualId = "Foo::Bar".data ∧
    findNamedLevel1 fooDecl.children "identifier" = none ∧
    traceLine "Foo::Bar".data ≠ traceLine "Bar".data := by
  refine ⟨by decide, rfl, by decide, rfl, by decide⟩

/-! ## Claim C4 -/

/-- C4 counterexample: a function_definition whose compound_statement has
a single child (unterminated body as produced by error recovery).  It
passes the constexpr, declarator, name and parameter checks, then falls
through the (child_count > 1) test: no Edit is pushed, no diagnostic is
logged, and the outcome is not the already-instrumented skip — so none of
the three outcomes of the claim happens, refuting that a function node never
has zero outcomes. -/
theorem claim_C4_counterexample :
    stubFn.kind = "function_definition" ∧
    ¬((fnEdits (classifyFn stubSrc stubFn)).length = 1 ∨
      classifyFn stubSrc stubFn = .skipAlreadyDone ∨
      (fnDiags stubSrc stubFn (classifyFn stubSrc stubFn)).length = 1) := by
  decide

/-- C4 (amended): every function_definition node triggers exactly one of
FOUR outcomes — it emits exactly one Edit with no diagnostic, it is
rejected with exactly one diagnostic and no Edit, it is silently skipped
as already instrumented, or it is silently ignored because its body node
has fewer than two children; and no function node ever produces more than
one Edit. -/
theorem claim_C4_eligibility_exclusivity (src : List Char) (n : Node)
    (_hk : n.kind = "function_definition") :
    (fnEdits (classifyFn src n)).length ≤ 1 ∧
    ((fnEdits (classifyFn src n)).length = 1 ∨
      (fnDiags src n (classifyFn src n)).length = 1 ∨
      classifyFn src n = .skipAlreadyDone ∨
      classifyFn src n = .fallThroughSmallBody) ∧
    ((fnEdits (classifyFn src n)).length = 1 →
      (fnDiags src n (classifyFn src n)).length = 0 ∧
      classifyFn src n ≠ .skipAlreadyDone ∧
      classifyFn src n ≠ .fallThroughSmallBody) ∧
    ((fnDiags src n (classifyFn src n)).length = 1 →
      (fnEdits (classifyFn src n)).length = 0 ∧
      classifyFn src n ≠ .skipAlreadyDone ∧
      classifyFn src n ≠ .fallThroughSmallBody) ∧
    (classifyFn src n = .skipAlreadyDone →
      (fnEdits (classifyFn src n)).length = 0 ∧
      (fnDiags src n (classifyFn src n)).length = 0) ∧
    (classifyFn src n = .fallThroughSmallBody →
      (fnEdits (classifyFn src n)).length = 0 ∧
      (fnDiags src n (classifyFn src n)).length = 0) := by
  rcases h : classifyFn src n <;> simp [fnEdits, fnDiags]

/-- C4 witness: the amended theorem applied to the add scenario node,
whose outcome is the single-Edit one. -/
theorem claim_C4_witness :
    addFn.kind = "function_definition" ∧
    (fnEdits (classifyFn addSrc addFn)).length ≤ 1 :=
  ⟨by decide, (claim_C4_eligibility_exclusivity addSrc addFn (by decide)).1⟩

/-! ## Claim C6 -/

/-- C6: evaluation of the code at the failing input
const constexpr int f() .. return 1; .. — a function that does carry a
first-level type_qualifier child whose source text is exactly constexpr
(the second qualifier), yet the planner emits an Edit for it: the lookup
ts_find_node_in_first_child_level_by_type returns only the FIRST
type_qualifier child (source text const), the equality check fails, and
the eligibility pipeline proceeds to emit.  This contradicts the claim
(and the own comment of the code) that such functions are rejected with the
constexpr reason. -/
theorem claim_C6_code_behavior :
    dqFn.kind = "function_definition" ∧
    dqFn.children[1]? = some dqConstexprQual ∧
    dqConstexprQual.named = true ∧
    dqConstexprQual.kind = "type_qualifier" ∧
    nodeText dqSrc dqConstexprQual = "constexpr".data ∧
    classifyFn dqSrc dqFn = .emit 26 (traceLine "f".data ++ " ".data) ∧
    planEdits dqSrc dqRoot = [(26, traceLine "f".data ++ " ".data)] ∧
    planDiags dqSrc dqRoot = [] := by
  refine ⟨by decide, rfl, by decide, by decide, by decide, by decide, by decide, by decide⟩

/-- Supporting lemma: the rejection the code does implement — when the
FIRST first-level type_qualifier child (the one the level-1 search finds)
has source text exactly constexpr, the node is rejected with the
constexpr reason, no Edit is emitted and exactly the constexpr diagnostic
is logged. -/
theorem constexpr_first_qualifier_rejects (src : List Char) (n : Node) (q : Node)
    (hq : findNamedLevel1 n.children "type_qualifier" = some q)
    (ht : nodeText src q = "constexpr".data) :
    classifyFn src n = .rejectConstexpr ∧
    fnEdits (classifyFn src n) = [] ∧
    fnDiags src n (classifyFn src n) = [("constexpr can\x27t trace", nodeText src n)] := by
  have hchk : checkNodeSource src (findNamedLevel1 n.children "type_qualifier")
      "constexpr".data = true := by
    rw [hq]
    simp [checkNodeSource, ht]
  have hcl : classifyFn src n = .rejectConstexpr := by
    unfold classifyFn
    rw [hchk]
    rfl
  rw [hcl]
  exact ⟨rfl, rfl, rfl⟩

/-! ## Claim C5 -/

/-- C5 counterexample: the constexpr outer function of the nested
scenario.  It is a function_definition with four named children, yet the
traversal visits nothing below it (the constexpr rejection uses the
non-traversing error macro), so the eligible method of the local class
inside it is never instrumented: the whole tree plans zero edits although
the inner function on its own would receive one. -/
theorem claim_C5_counterexample :
    nestOuterFn.kind = "function_definition" ∧
    (nestOuterFn.children.filter Node.named).length = 4 ∧
    visitedNode nestSrc nestOuterFn = [nestOuterFn] ∧
    planEdits nestSrc nestRoot = [] ∧
    planEdits nestSrc nestInnerFn = [(45, traceLine "m".data ++ " ".data)] := by
  refine ⟨by decide, by decide, rfl, by decide, by decide⟩

/-- C5 (amended): for a visited function_definition node the planner
recurses into the own named children of the node before moving on exactly when
the outcome is one of: rejection for missing declarator, missing
name identifier, or missing parameter list, the silent small-body
fall-through, or the accepted emitting path.  For the constexpr rejection,
the missing-body, null-first-child, missing-name-field and multiline-name
rejections, and the already-instrumented skip, it moves directly to the
next named sibling without recursing, so functions nested inside those
nodes are not visited. -/
theorem claim_C5_traversal (src : List Char) (n : Node)
    (hk : n.kind = "function_definition") :
    visitedNode src n =
      n :: (if fnRecurses (classifyFn src n) then visitedKids src n.children else []) ∧
    (fnRecurses (classifyFn src n) = true ↔
      (classifyFn src n = .rejectNoDeclarator ∨
       classifyFn src n = .rejectNoIdentifier ∨
       classifyFn src n = .rejectNoParams ∨
       classifyFn src n = .fallThroughSmallBody ∨
       ∃ o t, classifyFn src n = .emit o t)) := by
  constructor
  · cases n with
    | mk nb ft k sb eb cs =>
      simp only [Node.kind] at hk
      subst hk
      simp [visitedNode, Node.children]
  · rcases h : classifyFn src n <;> simp [fnRecurses]

/-- C5 witness: the amended theorem applied to the add scenario node,
whose outcome is the emitting one, hence recursing. -/
theorem claim_C5_witness :
    addFn.kind = "function_definition" ∧
    (fnRecurses (classifyFn addSrc addFn) = true ↔
      (classifyFn addSrc addFn = .rejectNoDeclarator ∨
       classifyFn addSrc addFn = .rejectNoIdentifier ∨
       classifyFn addSrc addFn = .rejectNoParams ∨
       classifyFn addSrc addFn = .fallThroughSmallBody ∨
       ∃ o t, classifyFn addSrc addFn = .emit o t)) :=
  ⟨by decide, (claim_C5_traversal addSrc addFn (by decide)).2⟩

/-! ## Inversion of the emitting branch -/

theorem classify_emit_inversion (src : List Char) (n : Node) {o : Nat} {t : List Char}
    (h : classifyFn src n = .emit o t) :
    ∃ fd body fc nameN,
      findNamedLevel1 n.children "function_declarator" = some fd ∧
      childByNodeType n.children "compound_statement" = some body ∧
      1 < body.children.length ∧
      body.children[1]? = some fc ∧
      childByFieldName fd.children "declarator" = some nameN ∧
      containsSub markerStr (nodeText src fc) = false ∧
      o = fc.startB ∧
      t = traceLine (nodeText src nameN) ++ blankChars src body fc := by
  unfold classifyFn at h
  split at h
  · exact FnOutcome.noConfusion h
  · split at h
    · exact FnOutcome.noConfusion h
    · rename_i fd hfd
      split at h
      · exact FnOutcome.noConfusion h
      · split at h
        · exact FnOutcome.noConfusion h
        · split at h
          · exact FnOutcome.noConfusion h
          · rename_i body hbody
            split at h
            · split at h
              · exact FnOutcome.noConfusion h
              · rename_i hlen fc hfc
                split at h
                · exact FnOutcome.noConfusion h
                · rename_i nameN hname
                  split at h
                  · exact FnOutcome.noConfusion h
                  · split at h
                    · exact FnOutcome.noConfusion h
                    · rename_i hcont
                      injection h with h1 h2
                      exact ⟨fd, body, fc, nameN, hfd, hbody, by assumption,
                        hfc, hname, Bool.eq_false_iff.mpr hcont, h1.symm, h2.symm⟩
            · exact FnOutcome.noConfusion h

theorem classify_no_emit_of_marked (src : List Char) (n : Node)
    (h : fnMarkedAt src n = true) : fnEdits (classifyFn src n) = [] := by
  cases hc : classifyFn src n <;> simp [fnEdits]
  case emit o t =>
    obtain ⟨fd, body, fc, nameN, _, hbody, _, hfc, _, hcont, _, _⟩ :=
      classify_emit_inversion src n hc
    unfold fnMarkedAt at h
    simp only [hbody, hfc, hcont] at h
    exact Bool.noConfusion h

mutual

theorem visitNode_no_new_edits (src : List Char) :
    ∀ (n : Node) (st : PState), allFnMarked src n = true →
    (visitNode src n st).insertions = st.insertions
  | .mk nb ft k sb eb cs, st, h => by
    unfold allFnMarked at h
    rw [Bool.and_eq_true] at h
    obtain ⟨hself, hkids⟩ := h
    unfold visitNode
    by_cases hk : (k == "function_definition") = true
    · have hmk : fnMarkedAt src (Node.mk nb ft k sb eb cs) = true := by
        rw [if_pos hk] at hself
        exact hself
      have hpush : (pushOutcome src (Node.mk nb ft k sb eb cs)
          (classifyFn src (Node.mk nb ft k sb eb cs)) st).insertions = st.insertions := by
        simp [pushOutcome, classify_no_emit_of_marked src _ hmk]
      rw [if_pos hk]
      by_cases hr : fnRecurses (classifyFn src (Node.mk nb ft k sb eb cs)) = true
      · rw [if_pos hr, visitKids_no_new_edits src cs _ hkids, hpush]
      · rw [if_neg hr, hpush]
    · rw [if_neg hk]
      exact visitKids_no_new_edits src cs st hkids

theorem visitKids_no_new_edits (src : List Char) :
    ∀ (l : List Node) (st : PState), allFnMarkedKids src l = true →
    (visitKids src l st).insertions = st.insertions
  | [], _, _ => rfl
  | c :: rest, st, h => by
    unfold allFnMarkedKids at h
    rw [Bool.and_eq_true] at h
    obtain ⟨hc, hrest⟩ := h
    unfold visitKids
    by_cases hn : c.named = true
    · rw [if_pos hn, visitKids_no_new_edits src rest _ hrest, visitNode_no_new_edits src c st hc]
    · rw [if_neg hn, visitKids_no_new_edits src rest st hrest]

end

/-! ## Claim C2 -/

theorem leadsWith_append (xs ys : List Char) : leadsWith xs (xs ++ ys) = true := by
  induction xs with
  | nil => rfl
  | cons a as ih => simp [leadsWith, ih]

theorem containsSub_of_leadsWith {needle hay : List Char}
    (h : leadsWith needle hay = true) : containsSub needle hay = true := by
  cases hay with
  | nil => exact h
  | cons c rest => simp [containsSub, h]

/-- Every text the planner emits starts with the trace marker, so after a
first run the buffer shows the marker at each instrumented position. -/
theorem emitted_text_contains_marker (src : List Char) (n : Node) {o : Nat}
    {t : List Char} (h : classifyFn src n = .emit o t) :
    containsSub markerStr t = true := by
  obtain ⟨fd, body, fc, nameN, _, _, _, _, _, _, _, ht⟩ :=
    classify_emit_inversion src n h
  rw [ht]
  unfold traceLine
  have hsplit : ("TRACE_CPUPROFILER_EVENT_SCOPE(".data : List Char) =
      markerStr ++ "(".data := by decide
  rw [hsplit]
  apply containsSub_of_leadsWith
  simp only [List.append_assoc]
  exact leadsWith_append _ _

/-- C2: idempotence of the pipeline.  First, every inserted text carries
the trace marker, so a first run leaves the marker at the start of the
first statement of each instrumented body.  Second, the general
second-run no-op: for any buffer and any tree of it in which every
function definition already shows the trace marker in the first statement
of its body — exactly the textual state a first run establishes, granted
the external parser parses the inserted marker statement as the first
statement of each instrumented body — the planner emits an empty edit
list, and the applier maps the buffer to itself, so a second
parse-plan-apply run changes nothing.  Third, the concrete steady state:
the already-instrumented input
int add(int a,int b).. TRACE_CPUPROFILER_EVENT_SCOPE(add); return a+b; ..
yields zero edits and zero diagnostics. -/
theorem claim_C2_idempotence :
    (∀ (src : List Char) (n : Node) (o : Nat) (t : List Char),
      classifyFn src n = .emit o t → containsSub markerStr t = true) ∧
    (∀ (src : List Char) (t : Node), allFnMarked src t = true →
      planEdits src t = [] ∧
      ∀ out, applierRel (planEdits src t) src out → out = src) ∧
    planEdits steadySrc steadyRoot = [] ∧
    planDiags steadySrc steadyRoot = [] := by
  refine ⟨fun src n o t h => emitted_text_contains_marker src n h,
    fun src t hmk => ?_, by decide, by decide⟩
  have hplan : planEdits src t = [] := by
    unfold planEdits planState
    exact visitNode_no_new_edits src t _ hmk
  refine ⟨hplan, fun out hrel => ?_⟩
  obtain ⟨es', ⟨hp, _⟩, ha⟩ := hrel
  rw [hplan] at hp
  have : es' = [] := hp.symm.eq_nil
  rw [this] at ha
  exact (Option.some.inj ha).symm

/-- C2 witness: the general part of the theorem applied to the
steady-state source and tree, which satisfy the marker condition. -/
theorem claim_C2_witness :
    allFnMarked steadySrc steadyRoot = true ∧
    planEdits steadySrc steadyRoot = [] :=
  ⟨by decide, (claim_C2_idempotence.2.1 steadySrc steadyRoot (by decide)).1⟩

/-! ## Well-formedness and node-origin lemmas -/

theorem nodeWF_spec {len : Nat} {n : Node} (h : nodeWF len n = true) :
    n.startB ≤ n.endB ∧ n.endB ≤ len ∧ kidsWF len n.children = true := by
  cases n with
  | mk nb ft k sb eb cs =>
    unfold nodeWF at h
    simp only [Bool.and_eq_true, decide_eq_true_eq] at h
    exact ⟨h.1.1, h.1.2, h.2⟩

theorem kidsWF_mem {len : Nat} :
    ∀ (l : List Node), kidsWF len l = true → ∀ c ∈ l, nodeWF len c = true := by
  intro l
  induction l with
  | nil => intro _ c hc; cases hc
  | cons a rest ih =>
    intro h c hc
    unfold kidsWF at h
    rw [Bool.and_eq_true] at h
    rcases List.mem_cons.mp hc with rfl | hc
    · exact h.1
    · exact ih h.2 c hc

theorem self_mem_nodesOf (n : Node) : n ∈ nodesOf n := by
  cases n with
  | mk nb ft k sb eb cs =>
    unfold nodesOf
    exact List.mem_cons_self _ _

theorem mem_nodesOfKids_of_mem :
    ∀ (l : List Node) (c : Node), c ∈ l → ∀ d ∈ nodesOf c, d ∈ nodesOfKids l := by
  intro l
  induction l with
  | nil => intro c hc; cases hc
  | cons a rest ih =>
    intro c hc d hd
    unfold nodesOfKids
    rcases List.mem_cons.mp hc with rfl | hc
    · exact List.mem_append_left _ hd
    · exact List.mem_append_right _ (ih c hc d hd)

theorem mem_nodesOf_of_child {n c d : Node} (hc : c ∈ n.children)
    (hd : d ∈ nodesOf c) : d ∈ nodesOf n := by
  cases n with
  | mk nb ft k sb eb cs =>
    unfold nodesOf
    exact List.mem_cons_of_mem _ (mem_nodesOfKids_of_mem cs c hc d hd)

/-- Where the offset of an emitted edit comes from: the start byte of the
child at index 1, a node of the tree, whose end is within the buffer. -/
theorem emit_offset_ok (src : List Char) (len : Nat) (n : Node)
    (hwf : nodeWF len n = true) {o : Nat} {t : List Char}
    (h : classifyFn src n = .emit o t) :
    (∃ d, d ∈ nodesOf n ∧ o = d.startB) ∧ o ≤ len := by
  obtain ⟨fd, body, fc, nameN, _, hbody, _, hfc, _, _, ho, _⟩ :=
    classify_emit_inversion src n h
  have hbodymem : body ∈ n.children := List.mem_of_find?_eq_some hbody
  have hfcmem : fc ∈ body.children := List.getElem?_mem hfc
  have hwfb : nodeWF len body = true :=
    kidsWF_mem n.children (nodeWF_spec hwf).2.2 body hbodymem
  have hwff : nodeWF len fc = true :=
    kidsWF_mem body.children (nodeWF_spec hwfb).2.2 fc hfcmem
  have hle : fc.startB ≤ len :=
    Nat.le_trans (nodeWF_spec hwff).1 (nodeWF_spec hwff).2.1
  exact ⟨⟨fc, mem_nodesOf_of_child hbodymem
      (mem_nodesOf_of_child hfcmem (self_mem_nodesOf fc)), ho⟩, ho ▸ hle⟩

/-- Effect of recording one outcome on the insertions: any new edit is an
emitted one, whose offset is the start byte of a node within bounds. -/
theorem push_edit_origin (src : List Char) (len : Nat) (n : Node) (st : PState)
    (hwf : nodeWF len n = true) :
    ∀ e ∈ (pushOutcome src n (classifyFn src n) st).insertions,
      e ∈ st.insertions ∨ ((∃ d, d ∈ nodesOf n ∧ e.1 = d.startB) ∧ e.1 ≤ len) := by
  intro e he
  simp only [pushOutcome] at he
  rcases List.mem_append.mp he with hin | hnew
  · exact Or.inl hin
  · right
    cases hoc : classifyFn src n <;> rw [hoc] at hnew <;> simp [fnEdits] at hnew
    case emit o t =>
      obtain ⟨hor, hle⟩ := emit_offset_ok src len n hwf hoc
      rw [hnew]
      exact ⟨hor, hle⟩

mutual

theorem visitNode_edit_origin (src : List Char) (len : Nat) :
    ∀ (n : Node) (st : PState), nodeWF len n = true →
    ∀ e ∈ (visitNode src n st).insertions,
      e ∈ st.insertions ∨ ((∃ d, d ∈ nodesOf n ∧ e.1 = d.startB) ∧ e.1 ≤ len)
  | .mk nb ft k sb eb cs, st, hwf, e, he => by
    have hkidswf : kidsWF len cs = true := (nodeWF_spec hwf).2.2
    have hlift : ∀ d, d ∈ nodesOfKids cs → d ∈ nodesOf (Node.mk nb ft k sb eb cs) := by
      intro d hd
      unfold nodesOf
      exact List.mem_cons_of_mem _ hd
    unfold visitNode at he
    by_cases hk : (k == "function_definition") = true
    · rw [if_pos hk] at he
      by_cases hr : fnRecurses (classifyFn src (Node.mk nb ft k sb eb cs)) = true
      · rw [if_pos hr] at he
        rcases visitKids_edit_origin src len cs _ hkidswf e he with hin | ⟨⟨d, hd, hds⟩, hle⟩
        · rcases push_edit_origin src len (Node.mk nb ft k sb eb cs) st hwf e hin with
            h1 | h2
          · exact Or.inl h1
          · exact Or.inr h2
        · exact Or.inr ⟨⟨d, hlift d hd, hds⟩, hle⟩
      · rw [if_neg hr] at he
        exact push_edit_origin src len (Node.mk nb ft k sb eb cs) st hwf e he
    · rw [if_neg hk] at he
      rcases visitKids_edit_origin src len cs st hkidswf e he with hin | ⟨⟨d, hd, hds⟩, hle⟩
      · exact Or.inl hin
      · exact Or.inr ⟨⟨d, hlift d hd, hds⟩, hle⟩

theorem visitKids_edit_origin (src : List Char) (len : Nat) :
    ∀ (l : List Node) (st : PState), kidsWF len l = true →
    ∀ e ∈ (visitKids src l st).insertions,
      e ∈ st.insertions ∨ ((∃ d, d ∈ nodesOfKids l ∧ e.1 = d.startB) ∧ e.1 ≤ len)
  | [], _, _, _, he => Or.inl he
  | c :: rest, st, hwf, e, he => by
    unfold kidsWF at hwf
    rw [Bool.and_eq_true] at hwf
    obtain ⟨hcwf, hrestwf⟩ := hwf
    have hliftc : ∀ d, d ∈ nodesOf c → d ∈ nodesOfKids (c :: rest) := by
      intro d hd
      unfold nodesOfKids
      exact List.mem_append_left _ hd
    have hliftr : ∀ d, d ∈ nodesOfKids rest → d ∈ nodesOfKids (c :: rest) := by
      intro d hd
      unfold nodesOfKids
      exact List.mem_append_right _ hd
    unfold visitKids at he
    rcases visitKids_edit_origin src len rest _ hrestwf e he with hin | ⟨⟨d, hd, hds⟩, hle⟩
    · by_cases hn : c.named = true
      · rw [if_pos hn] at hin
        rcases visitNode_edit_origin src len c st hcwf e hin with h1 | ⟨⟨d, hd, hds⟩, hle⟩
        · exact Or.inl h1
        · exact Or.inr ⟨⟨d, hliftc d hd, hds⟩, hle⟩
      · rw [if_neg hn] at hin
        exact Or.inl hin
    · exact Or.inr ⟨⟨d, hliftr d hd, hds⟩, hle⟩

end

/-! ## Claim C10 -/

/-- C10: implicit planner-applier safety.  For a well-formed tree (the byte range of every
node within the buffer, the §3 invariant of parser-produced
trees), every Edit the planner emits has as offset the start byte of some
node of that very tree, hence an offset never exceeding the buffer length;
consequently, for any admissible sorted order of the edits of the planner, the
Applier succeeds — its out-of-bounds failure branch is unreachable on
planner output. -/
theorem claim_C10_planner_applier_safety (src : List Char) (root : Node)
    (hwf : nodeWF src.length root = true) :
    (∀ e ∈ planEdits src root,
      (∃ d, d ∈ nodesOf root ∧ e.1 = d.startB) ∧ e.1 ≤ src.length) ∧
    (∀ es', sortSpec (planEdits src root) es' →
      ∃ out, applyEdits es' src = some out) := by
  have hmain : ∀ e ∈ planEdits src root,
      (∃ d, d ∈ nodesOf root ∧ e.1 = d.startB) ∧ e.1 ≤ src.length := by
    intro e he
    unfold planEdits planState at he
    rcases visitNode_edit_origin src src.length root _ hwf e he with hin | hres
    · exact absurd hin (List.not_mem_nil e)
    · exact hres
  refine ⟨hmain, fun es' hsort => ?_⟩
  obtain ⟨hp, _⟩ := hsort
  obtain ⟨out, hout, _, _⟩ := applyEdits_total_of_bounds es' src
    (fun e he => (hmain e (hp.mem_iff.mpr he)).2)
  exact ⟨out, hout⟩

/-- C10 witness: the theorem applied to the add scenario, whose tree is
well-formed for its 39-byte buffer. -/
theorem claim_C10_witness :
    nodeWF addSrc.length addRoot = true ∧
    ∀ e ∈ planEdits addSrc addRoot, e.1 ≤ addSrc.length :=
  ⟨by decide, fun e he =>
    ((claim_C10_planner_applier_safety addSrc addRoot (by decide)).1 e he).2⟩

end TsDemo
